import Mathlib

/-!
Verification of drawCylinder.cc: mesh generation, camera controller and render pass.

A shallow embedding of `src/graphics/gpuBufferPrograms/drawCylinder/drawCylinder.cc`.

Modelling conventions.

* `int` values (`numSides`, `numStacks`, `pos`, `leftBase`, `rightBase`, loop counters) are
  natural numbers; the one place where the source can go below zero (`numSides-1`) is
  evaluated over `Int`.  The products that size the arrays are assumed to fit in an `int`
  (otherwise the arrays could not be allocated), so no wrap-around is modelled.
* A C array is a `Buf`: a list of cells, `none` for a cell that was never written, together
  with a flag that is cleared by the first store outside the array.  A row `[3]` of
  `vertices` or `normals` is one cell holding a triple.
* `double`/`GLfloat` arithmetic of the mesh generator is abstract (`Arith`): the loops are
  written against an arbitrary implementation of the operations they use, so results that do
  not depend on rounding hold for every arithmetic, and results "in exact arithmetic" are
  stated for the real numbers (`Arith.Exact`).
* The `float` camera variables are rationals; every store of a sum or difference into a
  `float` variable goes through a rounding function `rnd` (`id` for exact arithmetic).
* The GPU calls of `defineUnitCylinder` (`glGenBuffers`, `glBindBuffer`, `glBufferData`) copy
  the three arrays unchanged and are not modelled; `display` is modelled by the sequence of
  graphics commands it issues.
-/

set_option autoImplicit false
set_option linter.unusedVariables false

namespace DrawCylinder































/-! ## Loops and arrays -/

/-- The loop `for (int k = 0; k < n; k++) s = body k s`. -/
def forLoop {σ : Type} : Nat → (Nat → σ → σ) → σ → σ
  | 0, _, s => s
  | n + 1, body, s => body n (forLoop n body s)

/-- A C array: `none` marks a cell that has not been written; `inBounds` is cleared by a
store outside the array. -/
structure Buf (α : Type) where
  cells : List (Option α)
  inBounds : Bool

/-- The declaration `T a[n];` (cells uninitialised). -/
def Buf.alloc {α : Type} (n : Nat) : Buf α :=
  { cells := List.replicate n none, inBounds := true }

/-- The assignment `a[p] = v;`. -/
def Buf.store {α : Type} (b : Buf α) (p : Nat) (v : α) : Buf α :=
  { cells := b.cells.set p (some v)
    inBounds := b.inBounds && decide (p < b.cells.length) }

/-- The value of `a[p]`, when the cell exists and has been written. -/
def Buf.read {α : Type} (b : Buf α) (p : Nat) : Option α :=
  b.cells[p]?.join

/-! ## defineUnitCylinder: the index loop (lines 98-122) -/

/-- State of the index loops: the counter `pos` and the array `vertexIndices`. -/
structure IndexState where
  pos : Nat
  vertexIndices : Buf Nat

/-- State of the inner index loop: additionally `leftBase` and `rightBase`. -/
structure StackState where
  leftBase : Nat
  rightBase : Nat
  st : IndexState

/-- The statement `vertexIndices[pos++] = v;`. -/
def IndexState.emit (s : IndexState) (v : Nat) : IndexState :=
  { pos := s.pos + 1, vertexIndices := s.vertexIndices.store s.pos v }

/-- Body of `for (int j = 0; j < numStacks; j++)` (lines 108-120). -/
def indexStackBody (_j : Nat) (s : StackState) : StackState :=
  let t := s.st
  -- define the first triangle
  let t := t.emit s.leftBase
  let t := t.emit (s.leftBase + 1)
  let t := t.emit (s.rightBase + 1)
  -- define the second triangle
  let t := t.emit s.leftBase
  let t := t.emit (s.rightBase + 1)
  let t := t.emit s.rightBase
  -- update bases for next stack
  { leftBase := s.leftBase + 1, rightBase := s.rightBase + 1, st := t }

/-- The initial value of `rightBase` on side `i` (line 106):
`i<(numSides-1) ? (i+1)*(numStacks+1) : 0`. -/
def rightBase0 (numSides numStacks i : Nat) : Nat :=
  if (i : Int) < (numSides : Int) - 1 then (i + 1) * (numStacks + 1) else 0

/-- Body of `for (int i = 0; i < numSides; i++)` (lines 104-121). -/
def indexSideBody (numSides numStacks : Nat) (i : Nat) (s : IndexState) : IndexState :=
  let leftBase := i * (numStacks + 1)
  let rightBase := rightBase0 numSides numStacks i
  (forLoop numStacks indexStackBody
    { leftBase := leftBase, rightBase := rightBase, st := s }).st

/-- Lines 99-122: `numIndices`, the array `vertexIndices[numIndices]` and the two loops.
Returns `numIndices` and the final state of the loops. -/
def indexLoop (numSides numStacks : Nat) : Nat × IndexState :=
  let numIndices := 6 * numStacks * numSides
  (numIndices,
   forLoop numSides (indexSideBody numSides numStacks)
     { pos := 0, vertexIndices := Buf.alloc numIndices })

/-! ## defineUnitCylinder: the vertex loop (lines 43-87) -/

/-- The floating-point operations used by `defineUnitCylinder`: `D` is `double`, `F` is
`GLfloat`.  `ofInt` is the conversion of an `int` operand to `double`, `toFloat` the
conversion that happens when a `double` is stored into a `GLfloat` array. -/
structure Arith (D F : Type) where
  zero : D
  one : D
  two : D
  pi : D
  neg : D → D
  add : D → D → D
  sub : D → D → D
  mul : D → D → D
  div : D → D → D
  cos : D → D
  sin : D → D
  ofInt : Int → D
  toFloat : D → F

/-- State of the vertex loops: `theta`, the counter `pos` and the arrays `vertices` and
`normals` (one cell per row `[3]`). -/
structure VertexState (D F : Type) where
  theta : D
  pos : Nat
  vertices : Buf (F × F × F)
  normals : Buf (F × F × F)

/-- State of the inner vertex loop: additionally `z`. -/
structure LineState (D F : Type) where
  z : D
  st : VertexState D F

/-- Body of `for (int j = 0; j < numStacks+1; j++)` (lines 67-82); `x`, `y` and `deltaZ` are
not assigned in the loop. -/
def vertexStackBody {D F : Type} (A : Arith D F) (numStacks : Nat) (x y deltaZ : D)
    (j : Nat) (s : LineState D F) : LineState D F :=
  let t := s.st
  -- make sure last vertex is at z = -1.0
  let v2 := if j < numStacks then A.toFloat s.z else A.toFloat (A.neg A.one)
  let vertices := t.vertices.store t.pos (A.toFloat x, A.toFloat y, v2)
  let normals := t.normals.store t.pos (A.toFloat x, A.toFloat y, A.toFloat A.zero)
  -- pos++, then calculate z value for next iteration
  { z := A.sub s.z deltaZ
    st := { theta := t.theta, pos := t.pos + 1, vertices := vertices, normals := normals } }

/-- Body of `for (int i = 0; i < numSides; i++)` (lines 58-86). -/
def vertexSideBody {D F : Type} (A : Arith D F) (numStacks : Nat) (deltaTheta deltaZ : D)
    (_i : Nat) (s : VertexState D F) : VertexState D F :=
  -- calculate the x and y coordinates of the vertices along this line
  let x := A.cos s.theta
  let y := A.sin s.theta
  -- z will start at the top of the cylinder
  let r := forLoop (numStacks + 1) (vertexStackBody A numStacks x y deltaZ)
    { z := A.one, st := s }
  -- increment theta for the next line
  { r.st with theta := A.add r.st.theta deltaTheta }

/-- The initialiser `deltaTheta = 2.0 * M_PI / numSides` (line 44). -/
def deltaTheta {D F : Type} (A : Arith D F) (numSides : Nat) : D :=
  A.div (A.mul A.two A.pi) (A.ofInt numSides)

/-- The initialiser `deltaZ = 2.0 / numStacks` (line 47). -/
def deltaZ {D F : Type} (A : Arith D F) (numStacks : Nat) : D :=
  A.div A.two (A.ofInt numStacks)

/-- Lines 43-87: the arrays `vertices` and `normals` of `numSides*(numStacks+1)` rows and the
two loops that fill them.  Returns the final state of the loops. -/
def vertexLoop {D F : Type} (A : Arith D F) (numSides numStacks : Nat) : VertexState D F :=
  forLoop numSides (vertexSideBody A numStacks (deltaTheta A numSides) (deltaZ A numStacks))
    { theta := A.zero, pos := 0
      vertices := Buf.alloc (numSides * (numStacks + 1))
      normals := Buf.alloc (numSides * (numStacks + 1)) }

/-- What `defineUnitCylinder` computes: the three arrays that are copied into the GPU
buffers, the global `numIndices`, and the value of `pos` at the end of each of the two loop
nests. -/
structure Mesh (F : Type) where
  vertices : Buf (F × F × F)
  normals : Buf (F × F × F)
  vertexPos : Nat
  numIndices : Nat
  vertexIndices : Buf Nat
  indexPos : Nat

/-- The function `defineUnitCylinder(numSides, numStacks)`. -/
def defineUnitCylinder {D F : Type} (A : Arith D F) (numSides numStacks : Nat) : Mesh F :=
  let v := vertexLoop A numSides numStacks
  let x := indexLoop numSides numStacks
  { vertices := v.vertices, normals := v.normals, vertexPos := v.pos
    numIndices := x.1, vertexIndices := x.2.vertexIndices, indexPos := x.2.pos }

/-- The value of `theta` at the start of line `i`: `deltaTheta` added `i` times to `0.0`. -/
def thetaAt {D F : Type} (A : Arith D F) (numSides : Nat) : Nat → D
  | 0 => A.zero
  | i + 1 => A.add (thetaAt A numSides i) (deltaTheta A numSides)

/-- The value of `z` at the start of stack `j`: `deltaZ` subtracted `j` times from `1.0`. -/
def zAt {D F : Type} (A : Arith D F) (numStacks : Nat) : Nat → D
  | 0 => A.one
  | j + 1 => A.sub (zAt A numStacks j) (deltaZ A numStacks)

/-! ## The camera: globals `theta`, `phi`, `dist` and the `keyboard` callback -/

/-- The globals `theta`, `phi`, `dist` (lines 19-21). -/
structure Camera where
  theta : ℚ
  phi : ℚ
  dist : ℚ
  deriving DecidableEq

/-- The initial values `theta=-30`, `phi=30`, `dist=5.0`. -/
def Camera.init : Camera := { theta := -30, phi := 30, dist := 5 }

/-- What a call of `keyboard` does: `exit(0)`, or return with the new camera state, having
called `glutPostRedisplay()` or not. -/
inductive KeyResult where
  | exit
  | ret (s : Camera) (postRedisplay : Bool)
  deriving DecidableEq

/-- The quit keys: `case 27`, `case 'Q'`, `case 'q'`. -/
def isQuitKey (key : Char) : Bool :=
  key = Char.ofNat 27 || key = 'Q' || key = 'q'

/-- The clamp of lines 304-307 and 313-316: `if (phi>90.0) phi = 90.0; else if (phi < -90.0)
phi = -90.0;`. -/
def clampPhi (phi : ℚ) : ℚ :=
  if phi > 90 then 90 else if phi < -90 then -90 else phi

/-- The callback `keyboard(key, x, y)` (lines 284-328).  `rnd` is the rounding applied when
the result of `+=` or `-=` is stored into a `float` variable. -/
def keyboard (rnd : ℚ → ℚ) (key : Char) (_x _y : Int) (s : Camera) : KeyResult :=
  if isQuitKey key then .exit
  else if key = '4' then .ret { s with theta := rnd (s.theta + 5) } true
  else if key = '6' then .ret { s with theta := rnd (s.theta - 5) } true
  else if key = '2' then .ret { s with phi := clampPhi (rnd (s.phi - 5)) } true
  else if key = '8' then .ret { s with phi := clampPhi (rnd (s.phi + 5)) } true
  else if key = '3' then .ret { s with dist := rnd (s.dist + 1 / 2) } true
  else if key = '9' then .ret { s with dist := rnd (s.dist - 1 / 2) } true
  else .ret s false

/-- A sequence of key events delivered by the main loop, until the process exits (`none`). -/
def pressKeys (rnd : ℚ → ℚ) : List Char → Camera → Option Camera
  | [], s => some s
  | key :: keys, s =>
    match keyboard rnd key 0 0 s with
    | .exit => none
    | .ret s' _ => pressKeys rnd keys s'

/-! ## The render pass: `setCamera`, `displayCylinder`, `display` -/

/-- Targets of `glBindBuffer`. -/
inductive BufferTarget where
  | arrayBuffer
  | elementArrayBuffer
  deriving DecidableEq

/-- Arrays of `glEnableClientState`. -/
inductive ClientArray where
  | vertexArray
  | normalArray
  deriving DecidableEq

/-- The graphics commands issued by `display`. -/
inductive GLCmd where
  | clearColorAndDepth
  | loadIdentity
  | translatef (x y z : ℚ)
  | rotatef (angle x y z : ℚ)
  | scalef (x y z : ℚ)
  | lightPosition (light : Nat) (pos : ℚ × ℚ × ℚ × ℚ)
  | disableLighting
  | enableLighting
  | beginLines
  | glEnd
  | color3f (r g b : ℚ)
  | vertex3f (x y z : ℚ)
  | pushMatrix
  | popMatrix
  | enableClientState (a : ClientArray)
  | disableClientState (a : ClientArray)
  | bindBuffer (target : BufferTarget) (buffer : Nat)
  | vertexPointer
  | normalPointer
  | drawElementsTriangles (count : Nat)
  | swapBuffers
  deriving DecidableEq

/-- The globals read by `display`: the camera, the three buffer ids and `numIndices`. -/
structure RenderState where
  cam : Camera
  vertexBuffer : Nat
  normalBuffer : Nat
  indexBuffer : Nat
  numIndices : Nat

/-- The function `setCamera` (lines 28-37). -/
def setCamera (s : Camera) : List GLCmd :=
  [ .loadIdentity,
    .translatef 0 0 (-s.dist),
    .rotatef s.phi 1 0 0,
    .rotatef s.theta 0 1 0 ]

/-- The function `displayCylinder` (lines 131-156). -/
def displayCylinder (g : RenderState) : List GLCmd :=
  [ -- enable vertices
    .enableClientState .vertexArray,
    .bindBuffer .arrayBuffer g.vertexBuffer,
    .vertexPointer,
    -- enable normals
    .enableClientState .normalArray,
    .bindBuffer .arrayBuffer g.normalBuffer,
    .normalPointer,
    -- bind the index array
    .bindBuffer .elementArrayBuffer g.indexBuffer,
    -- now draw the cylinder
    .drawElementsTriangles g.numIndices,
    -- disable things that we enabled
    .disableClientState .vertexArray,
    .disableClientState .normalArray,
    -- no buffers selected now
    .bindBuffer .arrayBuffer 0,
    .bindBuffer .elementArrayBuffer 0 ]

/-- The axes drawn on lines 238-253. -/
def drawAxes : List GLCmd :=
  [ .beginLines,
    .color3f 1 0 0, .vertex3f 0 0 0, .vertex3f 2 0 0,
    .color3f 0 1 0, .vertex3f 0 0 0, .vertex3f 0 2 0,
    .color3f 0 0 1, .vertex3f 0 0 0, .vertex3f 0 0 2,
    .glEnd ]

/-- The local `light0Pos[] = { 0.0, 2.0, 0.0, 1.0 }` of `display`. -/
def light0Pos : ℚ × ℚ × ℚ × ℚ := (0, 2, 0, 1)

/-- The local `light1Pos[] = { 0.5, 1.0, 0.0, 1.0 }` of `display`. -/
def light1Pos : ℚ × ℚ × ℚ × ℚ := (1 / 2, 1, 0, 1)

/-- The callback `display` (lines 213-273), as the sequence of commands it issues.  Both
`glLightfv(..., GL_POSITION, ...)` calls pass `light1Pos` (lines 226 and 232). -/
def display (g : RenderState) : List GLCmd :=
  [ .clearColorAndDepth,
    -- set viewpoint
    .loadIdentity,
    -- light1 is in camera frame
    .lightPosition 1 light1Pos ]
  -- set the camera
  ++ setCamera g.cam
  ++ [ -- light0 is in world frame
       .lightPosition 0 light1Pos,
       -- axes won't be lighted
       .disableLighting ]
  ++ drawAxes
  ++ [ -- other objects in the world will be lighted
       .enableLighting,
       -- draw some cylinders
       .color3f 1 0 0 ]
  ++ displayCylinder g
  ++ [ .pushMatrix,
       .rotatef (-90) 1 0 0,
       .translatef (3 / 2) 1 (-1 / 2),
       .scalef (1 / 2) (1 / 2) 1,
       .color3f 0 0 1 ]
  ++ displayCylinder g
  ++ [ .popMatrix,
       -- display things
       .swapBuffers ]

/-! ## Invariants of the index loop -/

/-- The six entries of quad `(i, j)` are in place in `b`. -/
def QuadAt (numSides numStacks : Nat) (b : Buf Nat) (i j : Nat) : Prop :=
  b.read (6 * (i * numStacks + j)) = some (i * (numStacks + 1) + j) ∧
  b.read (6 * (i * numStacks + j) + 1) = some (i * (numStacks + 1) + j + 1) ∧
  b.read (6 * (i * numStacks + j) + 2) = some (rightBase0 numSides numStacks i + j + 1) ∧
  b.read (6 * (i * numStacks + j) + 3) = some (i * (numStacks + 1) + j) ∧
  b.read (6 * (i * numStacks + j) + 4) = some (rightBase0 numSides numStacks i + j + 1) ∧
  b.read (6 * (i * numStacks + j) + 5) = some (rightBase0 numSides numStacks i + j)

/-- Invariant of the index loops after `q` quads. -/
structure IndexInv (numSides numStacks N q : Nat) (s : IndexState) : Prop where
  pos_eq : s.pos = 6 * q
  length_eq : s.vertexIndices.cells.length = N
  inBounds : s.vertexIndices.inBounds = true
  quads : ∀ i j, j < numStacks → i * numStacks + j < q →
    QuadAt numSides numStacks s.vertexIndices i j

/-! ## Invariants of the vertex loop -/

/-- Row `i*(numStacks+1)+j` of `vertices` and of `normals` holds the data of line `i`,
stack `j`. -/
def RowAt {D F : Type} (A : Arith D F) (numSides numStacks : Nat)
    (vertices normals : Buf (F × F × F)) (i j : Nat) : Prop :=
  vertices.read (i * (numStacks + 1) + j)
    = some (A.toFloat (A.cos (thetaAt A numSides i)), A.toFloat (A.sin (thetaAt A numSides i)),
        if j < numStacks then A.toFloat (zAt A numStacks j) else A.toFloat (A.neg A.one)) ∧
  normals.read (i * (numStacks + 1) + j)
    = some (A.toFloat (A.cos (thetaAt A numSides i)), A.toFloat (A.sin (thetaAt A numSides i)),
        A.toFloat A.zero)

/-- Invariant of the vertex loops after `q` rows. -/
structure VertexInv {D F : Type} (A : Arith D F) (numSides numStacks N q : Nat)
    (s : VertexState D F) : Prop where
  pos_eq : s.pos = q
  vlength : s.vertices.cells.length = N
  nlength : s.normals.cells.length = N
  vInBounds : s.vertices.inBounds = true
  nInBounds : s.normals.inBounds = true
  rows : ∀ i j, j < numStacks + 1 → i * (numStacks + 1) + j < q →
    RowAt A numSides numStacks s.vertices s.normals i j

/-! ## Closed form of the index array -/

/-- Entry `r` (`0 ≤ r < 6`) of quad `(i, j)`, as assigned on lines 109-116. -/
def quadEntry (numSides numStacks i j r : Nat) : Nat :=
  match r with
  | 0 => i * (numStacks + 1) + j
  | 1 => i * (numStacks + 1) + j + 1
  | 2 => rightBase0 numSides numStacks i + j + 1
  | 3 => i * (numStacks + 1) + j
  | 4 => rightBase0 numSides numStacks i + j + 1
  | _ => rightBase0 numSides numStacks i + j

/-! ## Exact arithmetic and vector operations -/

/-- The arithmetic `A` is exact real arithmetic. -/
structure Arith.Exact (A : Arith ℝ ℝ) : Prop where
  zero : A.zero = 0
  one : A.one = 1
  two : A.two = 2
  pi : A.pi = Real.pi
  neg : ∀ x, A.neg x = -x
  add : ∀ x y, A.add x y = x + y
  sub : ∀ x y, A.sub x y = x - y
  mul : ∀ x y, A.mul x y = x * y
  div : ∀ x y, A.div x y = x / y
  cos : ∀ x, A.cos x = Real.cos x
  sin : ∀ x, A.sin x = Real.sin x
  ofInt : ∀ n : Int, A.ofInt n = (n : ℝ)
  toFloat : ∀ x, A.toFloat x = x

/-- The third component of a row `[3]`. -/
def zCoord {F : Type} (v : F × F × F) : F := v.2.2

/-- Difference of two points. -/
def vsub {R : Type} [Sub R] (p q : R × R × R) : R × R × R :=
  (p.1 - q.1, p.2.1 - q.2.1, p.2.2 - q.2.2)

/-- Cross product. -/
def cross {R : Type} [Mul R] [Sub R] (u v : R × R × R) : R × R × R :=
  (u.2.1 * v.2.2 - u.2.2 * v.2.1, u.2.2 * v.1 - u.1 * v.2.2, u.1 * v.2.1 - u.2.1 * v.1)

/-- Dot product. -/
def dot {R : Type} [Mul R] [Add R] (u v : R × R × R) : R :=
  u.1 * v.1 + u.2.1 * v.2.1 + u.2.2 * v.2.2

/-! ## Predicates on command traces -/

/-- Whether a command is `glLightfv(..., GL_POSITION, ...)`. -/
def GLCmd.isLightPosition : GLCmd → Bool
  | .lightPosition _ _ => true
  | _ => false

/-- Whether a command is `glDrawElements`. -/
def GLCmd.isDraw : GLCmd → Bool
  | .drawElementsTriangles _ => true
  | _ => false

/-- The order stated for steps 2 and 3 of the render pass: every light-position command of
the trace comes after a complete camera transform (the four commands of `setCamera`). -/
def LightsAfterCamera (g : RenderState) (tr : List GLCmd) : Prop :=
  ∀ k c, tr[k]? = some c → c.isLightPosition = true →
    ∃ m, m + 4 ≤ k ∧ (tr.drop m).take 4 = setCamera g.cam

/-! ## The state after `init` -/

/-- A render state after `init`: the initial camera, the `numIndices` set by
`defineUnitCylinder( 50, 20 )`, and 1, 2, 3 for the buffer ids returned by `glGenBuffers`. -/
def RenderState.afterInit : RenderState :=
  { cam := Camera.init, vertexBuffer := 1, normalBuffer := 2, indexBuffer := 3
    numIndices := 6 * 20 * 50 }

/-! ## Facts about loops and arrays -/

theorem Buf.length_store {α : Type} (b : Buf α) (p : Nat) (v : α) :
    (b.store p v).cells.length = b.cells.length := by
  simp [Buf.store]

theorem Buf.inBounds_store {α : Type} (b : Buf α) (p : Nat) (v : α) :
    (b.store p v).inBounds = (b.inBounds && decide (p < b.cells.length)) := rfl

theorem Buf.read_store {α : Type} (b : Buf α) (p q : Nat) (v : α) :
    (b.store p v).read q
      = if p = q ∧ q < b.cells.length then some v else b.read q := by
  unfold Buf.read Buf.store
  by_cases h : p = q
  · subst h
    by_cases hl : p < b.cells.length
    · simp [hl]
    · have : b.cells.length ≤ p := Nat.le_of_not_lt hl
      simp [hl, List.getElem?_eq_none, this]
  · simp [h, List.getElem?_set_ne h]

theorem Buf.read_store_of_ne {α : Type} (b : Buf α) {p q : Nat} (v : α) (h : p ≠ q) :
    (b.store p v).read q = b.read q := by
  rw [Buf.read_store, if_neg (fun hc => h hc.1)]

theorem Buf.read_store_self {α : Type} (b : Buf α) {p : Nat} (v : α)
    (h : p < b.cells.length) : (b.store p v).read p = some v := by
  rw [Buf.read_store, if_pos ⟨rfl, h⟩]

/-- Division with remainder is unique: a quad number determines its side and stack. -/
theorem quad_unique {n i j i' j' : Nat} (hj : j < n) (hj' : j' < n)
    (h : i' * n + j' = i * n + j) : i' = i ∧ j' = j := by
  rcases Nat.lt_trichotomy i' i with hlt | heq | hgt
  · have := Nat.mul_le_mul_right n (Nat.succ_le_of_lt hlt)
    rw [Nat.succ_mul] at this
    omega
  · subst heq
    exact ⟨rfl, by omega⟩
  · have := Nat.mul_le_mul_right n (Nat.succ_le_of_lt hgt)
    rw [Nat.succ_mul] at this
    omega

/-- Quad `(i, j)` comes before the end of side `k` whenever `i < k`. -/
theorem quad_lt {n i j k : Nat} (hj : j < n) (hi : i < k) : i * n + j < k * n := by
  have := Nat.mul_le_mul_right n (Nat.succ_le_of_lt hi)
  rw [Nat.succ_mul] at this
  omega

/-! ## The index loop -/

theorem indexStackBody_inv {numSides numStacks N i m : Nat} {s : StackState}
    (hm : m < numStacks) (hN : 6 * (i * numStacks + m) + 6 ≤ N)
    (hl : s.leftBase = i * (numStacks + 1) + m)
    (hr : s.rightBase = rightBase0 numSides numStacks i + m)
    (h : IndexInv numSides numStacks N (i * numStacks + m) s.st) :
    (indexStackBody m s).leftBase = i * (numStacks + 1) + (m + 1) ∧
    (indexStackBody m s).rightBase = rightBase0 numSides numStacks i + (m + 1) ∧
    IndexInv numSides numStacks N (i * numStacks + (m + 1)) (indexStackBody m s).st := by
  obtain ⟨hp, hlen, hb, hq⟩ := h
  refine ⟨by simp [indexStackBody, hl]; omega, by simp [indexStackBody, hr]; omega, ?_⟩
  refine ⟨?_, ?_, ?_, ?_⟩
  · simp [indexStackBody, IndexState.emit, hp]; omega
  · simp [indexStackBody, IndexState.emit, Buf.length_store, hlen]
  · simp [indexStackBody, IndexState.emit, Buf.inBounds_store, Buf.length_store, hlen, hb, hp]
    omega
  · intro i' j' hj' hlt
    by_cases hold : i' * numStacks + j' < i * numStacks + m
    · have old := hq i' j' hj' hold
      unfold QuadAt at old ⊢
      simp only [indexStackBody, IndexState.emit, Buf.read_store, Buf.length_store, hlen, hp]
      refine ⟨?_, ?_, ?_, ?_, ?_, ?_⟩ <;>
        first
          | (rw [if_neg (by omega), if_neg (by omega), if_neg (by omega), if_neg (by omega),
              if_neg (by omega), if_neg (by omega)]; simp [old])
    · have heq : i' * numStacks + j' = i * numStacks + m := by omega
      obtain ⟨rfl, rfl⟩ := quad_unique hm hj' heq
      unfold QuadAt
      simp only [indexStackBody, IndexState.emit, Buf.read_store, Buf.length_store, hlen, hp,
        hl, hr]
      refine ⟨?_, ?_, ?_, ?_, ?_, ?_⟩
      · rw [if_neg (by omega), if_neg (by omega), if_neg (by omega), if_neg (by omega),
          if_neg (by omega), if_pos ⟨trivial, by omega⟩]
      · rw [if_neg (by omega), if_neg (by omega), if_neg (by omega), if_neg (by omega),
          if_pos ⟨trivial, by omega⟩]
      · rw [if_neg (by omega), if_neg (by omega), if_neg (by omega), if_pos ⟨trivial, by omega⟩]
      · rw [if_neg (by omega), if_neg (by omega), if_pos ⟨trivial, by omega⟩]
      · rw [if_neg (by omega), if_pos ⟨trivial, by omega⟩]
      · rw [if_pos ⟨trivial, by omega⟩]

theorem indexStackLoop_inv {numSides numStacks N i : Nat} {s : IndexState}
    (hN : 6 * (i * numStacks + numStacks) ≤ N)
    (h : IndexInv numSides numStacks N (i * numStacks) s) (m : Nat) (hm : m ≤ numStacks) :
    let r := forLoop m indexStackBody
      { leftBase := i * (numStacks + 1), rightBase := rightBase0 numSides numStacks i, st := s }
    r.leftBase = i * (numStacks + 1) + m ∧
    r.rightBase = rightBase0 numSides numStacks i + m ∧
    IndexInv numSides numStacks N (i * numStacks + m) r.st := by
  induction m with
  | zero => exact ⟨rfl, rfl, h⟩
  | succ m ih =>
    obtain ⟨hl, hr, hinv⟩ := ih (by omega)
    exact indexStackBody_inv (by omega) (by omega) hl hr hinv

theorem indexSideBody_inv {numSides numStacks N i : Nat} {s : IndexState}
    (hN : 6 * (i * numStacks + numStacks) ≤ N)
    (h : IndexInv numSides numStacks N (i * numStacks) s) :
    IndexInv numSides numStacks N ((i + 1) * numStacks)
      (indexSideBody numSides numStacks i s) := by
  have := (indexStackLoop_inv hN h numStacks (Nat.le_refl _)).2.2
  rw [Nat.succ_mul]
  exact this

theorem indexSideLoop_inv (numSides numStacks k : Nat) (hk : k ≤ numSides) :
    IndexInv numSides numStacks (6 * numStacks * numSides) (k * numStacks)
      (forLoop k (indexSideBody numSides numStacks)
        { pos := 0, vertexIndices := Buf.alloc (6 * numStacks * numSides) }) := by
  induction k with
  | zero =>
    refine ⟨by simp [forLoop], by simp [forLoop, Buf.alloc], rfl, ?_⟩
    intro i j _ hlt
    simp at hlt
  | succ k ih =>
    refine indexSideBody_inv ?_ (ih (by omega))
    have h1 : (k + 1) * numStacks ≤ numSides * numStacks := Nat.mul_le_mul_right _ hk
    rw [Nat.succ_mul] at h1
    have h2 : 6 * numStacks * numSides = 6 * (numSides * numStacks) := by
      rw [Nat.mul_assoc, Nat.mul_comm numStacks]
    omega

/-- What the index loops leave behind: `pos` has reached `numIndices`, no store left the
array, and the six entries of every quad are in place. -/
theorem indexLoop_spec (numSides numStacks : Nat) :
    (indexLoop numSides numStacks).1 = 6 * numStacks * numSides ∧
    (indexLoop numSides numStacks).2.pos = 6 * numStacks * numSides ∧
    (indexLoop numSides numStacks).2.vertexIndices.cells.length = 6 * numStacks * numSides ∧
    (indexLoop numSides numStacks).2.vertexIndices.inBounds = true ∧
    ∀ i j, i < numSides → j < numStacks →
      QuadAt numSides numStacks (indexLoop numSides numStacks).2.vertexIndices i j := by
  obtain ⟨hp, hl, hb, hq⟩ := indexSideLoop_inv numSides numStacks numSides (Nat.le_refl _)
  refine ⟨rfl, ?_, hl, hb, fun i j hi hj => hq i j hj (quad_lt hj hi)⟩
  show IndexState.pos (forLoop numSides _ _) = _
  rw [hp, Nat.mul_assoc, Nat.mul_comm numStacks]

/-- Every position below `6 * numStacks * numSides` is entry `r` of some quad `(i, j)`. -/
theorem position_decomp {numSides numStacks p : Nat} (hp : p < 6 * numStacks * numSides) :
    ∃ i j r, i < numSides ∧ j < numStacks ∧ r < 6 ∧ p = 6 * (i * numStacks + j) + r := by
  have hs : 0 < numStacks := by
    rcases Nat.eq_zero_or_pos numStacks with h | h
    · subst h; simp at hp
    · exact h
  refine ⟨p / 6 / numStacks, p / 6 % numStacks, p % 6, ?_, Nat.mod_lt _ hs, by omega, ?_⟩
  · rw [Nat.div_lt_iff_lt_mul hs]
    have : 6 * numStacks * numSides = 6 * (numSides * numStacks) := by
      rw [Nat.mul_assoc, Nat.mul_comm numStacks]
    omega
  · have := Nat.div_add_mod (p / 6) numStacks
    rw [Nat.mul_comm] at this
    omega

/-! ## The vertex loop -/

theorem vertexStackBody_inv {D F : Type} {A : Arith D F} {numSides numStacks N i m : Nat}
    {s : LineState D F} (hm : m < numStacks + 1) (hN : i * (numStacks + 1) + m + 1 ≤ N)
    (hz : s.z = zAt A numStacks m)
    (h : VertexInv A numSides numStacks N (i * (numStacks + 1) + m) s.st) :
    let r := vertexStackBody A numStacks (A.cos (thetaAt A numSides i))
      (A.sin (thetaAt A numSides i)) (deltaZ A numStacks) m s
    r.z = zAt A numStacks (m + 1) ∧ r.st.theta = s.st.theta ∧
    VertexInv A numSides numStacks N (i * (numStacks + 1) + (m + 1)) r.st := by
  obtain ⟨hp, hvl, hnl, hvb, hnb, hq⟩ := h
  refine ⟨by simp [vertexStackBody, hz, zAt], rfl, ?_⟩
  refine ⟨?_, ?_, ?_, ?_, ?_, ?_⟩
  · simp [vertexStackBody, hp]; omega
  · simp [vertexStackBody, Buf.length_store, hvl]
  · simp [vertexStackBody, Buf.length_store, hnl]
  · simp [vertexStackBody, Buf.inBounds_store, hvl, hvb, hp]; omega
  · simp [vertexStackBody, Buf.inBounds_store, hnl, hnb, hp]; omega
  · intro i' j' hj' hlt
    by_cases hold : i' * (numStacks + 1) + j' < i * (numStacks + 1) + m
    · have old := hq i' j' hj' hold
      have hne : s.st.pos ≠ i' * (numStacks + 1) + j' := by omega
      exact ⟨(Buf.read_store_of_ne _ _ hne).trans old.1,
        (Buf.read_store_of_ne _ _ hne).trans old.2⟩
    · have heq : i' * (numStacks + 1) + j' = i * (numStacks + 1) + m := by omega
      obtain ⟨rfl, rfl⟩ := quad_unique hm hj' heq
      have hv := Buf.read_store_self s.st.vertices
        (A.toFloat (A.cos (thetaAt A numSides i')), A.toFloat (A.sin (thetaAt A numSides i')),
          if j' < numStacks then A.toFloat s.z else A.toFloat (A.neg A.one))
        (show s.st.pos < _ by omega)
      have hn := Buf.read_store_self s.st.normals
        (A.toFloat (A.cos (thetaAt A numSides i')), A.toFloat (A.sin (thetaAt A numSides i')),
          A.toFloat A.zero)
        (show s.st.pos < _ by omega)
      unfold RowAt
      rw [← hp, ← hz]
      exact ⟨hv, hn⟩

theorem vertexStackLoop_inv {D F : Type} {A : Arith D F} {numSides numStacks N i : Nat}
    {s : VertexState D F} (hN : i * (numStacks + 1) + (numStacks + 1) ≤ N)
    (h : VertexInv A numSides numStacks N (i * (numStacks + 1)) s)
    (m : Nat) (hm : m ≤ numStacks + 1) :
    let r := forLoop m (vertexStackBody A numStacks (A.cos (thetaAt A numSides i))
      (A.sin (thetaAt A numSides i)) (deltaZ A numStacks)) { z := A.one, st := s }
    r.z = zAt A numStacks m ∧ r.st.theta = s.theta ∧
    VertexInv A numSides numStacks N (i * (numStacks + 1) + m) r.st := by
  induction m with
  | zero => exact ⟨rfl, rfl, h⟩
  | succ m ih =>
    obtain ⟨hz, ht, hinv⟩ := ih (by omega)
    obtain ⟨hz', ht', hinv'⟩ := vertexStackBody_inv (by omega) (by omega) hz hinv
    exact ⟨hz', ht'.trans ht, hinv'⟩

theorem vertexSideBody_inv {D F : Type} {A : Arith D F} {numSides numStacks N i : Nat}
    {s : VertexState D F} (hN : i * (numStacks + 1) + (numStacks + 1) ≤ N)
    (ht : s.theta = thetaAt A numSides i)
    (h : VertexInv A numSides numStacks N (i * (numStacks + 1)) s) :
    let r := vertexSideBody A numStacks (deltaTheta A numSides) (deltaZ A numStacks) i s
    r.theta = thetaAt A numSides (i + 1) ∧
    VertexInv A numSides numStacks N ((i + 1) * (numStacks + 1)) r := by
  obtain ⟨_, ht', hinv⟩ := vertexStackLoop_inv hN h (numStacks + 1) (Nat.le_refl _)
  rw [← ht] at ht' hinv
  rw [Nat.succ_mul]
  refine ⟨?_, ?_⟩
  · show A.add _ _ = _
    rw [ht', ht]; rfl
  · obtain ⟨a, b, c, d, e, f⟩ := hinv
    exact ⟨a, b, c, d, e, f⟩

theorem vertexSideLoop_inv {D F : Type} (A : Arith D F) (numSides numStacks k : Nat)
    (hk : k ≤ numSides) :
    let r := forLoop k
      (vertexSideBody A numStacks (deltaTheta A numSides) (deltaZ A numStacks))
      { theta := A.zero, pos := 0
        vertices := Buf.alloc (numSides * (numStacks + 1))
        normals := Buf.alloc (numSides * (numStacks + 1)) }
    r.theta = thetaAt A numSides k ∧
    VertexInv A numSides numStacks (numSides * (numStacks + 1)) (k * (numStacks + 1)) r := by
  induction k with
  | zero =>
    refine ⟨rfl, by simp [forLoop], by simp [forLoop, Buf.alloc], by simp [forLoop, Buf.alloc],
      rfl, rfl, ?_⟩
    intro i j _ hlt
    simp at hlt
  | succ k ih =>
    obtain ⟨ht, hinv⟩ := ih (by omega)
    refine vertexSideBody_inv ?_ ht hinv
    have h1 : (k + 1) * (numStacks + 1) ≤ numSides * (numStacks + 1) :=
      Nat.mul_le_mul_right _ hk
    rw [Nat.succ_mul] at h1
    exact h1

/-- What the vertex loops leave behind: `pos` has reached the number of rows, no store left
the arrays, and every row holds the data of its line and stack. -/
theorem vertexLoop_spec {D F : Type} (A : Arith D F) (numSides numStacks : Nat) :
    (vertexLoop A numSides numStacks).pos = numSides * (numStacks + 1) ∧
    (vertexLoop A numSides numStacks).vertices.cells.length = numSides * (numStacks + 1) ∧
    (vertexLoop A numSides numStacks).normals.cells.length = numSides * (numStacks + 1) ∧
    (vertexLoop A numSides numStacks).vertices.inBounds = true ∧
    (vertexLoop A numSides numStacks).normals.inBounds = true ∧
    ∀ i j, i < numSides → j ≤ numStacks →
      RowAt A numSides numStacks (vertexLoop A numSides numStacks).vertices
        (vertexLoop A numSides numStacks).normals i j := by
  obtain ⟨_, hp, hvl, hnl, hvb, hnb, hq⟩ :=
    vertexSideLoop_inv A numSides numStacks numSides (Nat.le_refl _)
  exact ⟨hp, hvl, hnl, hvb, hnb,
    fun i j hi hj => hq i j (by omega) (quad_lt (by omega) hi)⟩

/-! ## Consequences for the mesh -/

theorem read_vertexIndices {D F : Type} (A : Arith D F) {numSides numStacks i j r : Nat}
    (hi : i < numSides) (hj : j < numStacks) (hr : r < 6) :
    (defineUnitCylinder A numSides numStacks).vertexIndices.read (6 * (i * numStacks + j) + r)
      = some (quadEntry numSides numStacks i j r) := by
  obtain ⟨h0, h1, h2, h3, h4, h5⟩ := (indexLoop_spec numSides numStacks).2.2.2.2 i j hi hj
  have hr' : r = 0 ∨ r = 1 ∨ r = 2 ∨ r = 3 ∨ r = 4 ∨ r = 5 := by omega
  rcases hr' with rfl | rfl | rfl | rfl | rfl | rfl
  · exact h0
  · exact h1
  · exact h2
  · exact h3
  · exact h4
  · exact h5

theorem rightBase0_eq {numSides i : Nat} (numStacks : Nat) (hi : i < numSides) :
    rightBase0 numSides numStacks i = (i + 1) % numSides * (numStacks + 1) := by
  unfold rightBase0
  split
  · rw [Nat.mod_eq_of_lt (by omega)]
  · have : i + 1 = numSides := by omega
    rw [this, Nat.mod_self, Nat.zero_mul]

theorem Arith.Exact.deltaTheta_eq {A : Arith ℝ ℝ} (hA : A.Exact) (numSides : Nat) :
    deltaTheta A numSides = 2 * Real.pi / numSides := by
  simp [deltaTheta, hA.div, hA.mul, hA.two, hA.pi, hA.ofInt]

theorem Arith.Exact.deltaZ_eq {A : Arith ℝ ℝ} (hA : A.Exact) (numStacks : Nat) :
    deltaZ A numStacks = 2 / numStacks := by
  simp [deltaZ, hA.div, hA.two, hA.ofInt]

theorem Arith.Exact.thetaAt_eq {A : Arith ℝ ℝ} (hA : A.Exact) (numSides i : Nat) :
    thetaAt A numSides i = i * (2 * Real.pi / numSides) := by
  induction i with
  | zero => simp [thetaAt, hA.zero]
  | succ i ih =>
    rw [thetaAt, hA.add, ih, hA.deltaTheta_eq]
    push_cast
    ring

theorem Arith.Exact.zAt_eq {A : Arith ℝ ℝ} (hA : A.Exact) (numStacks j : Nat) :
    zAt A numStacks j = 1 - j * (2 / numStacks) := by
  induction j with
  | zero => simp [zAt, hA.one]
  | succ j ih =>
    rw [zAt, hA.sub, ih, hA.deltaZ_eq]
    push_cast
    ring

/-- In exact arithmetic, row `i*(numStacks+1)+j` of `vertices` is
`(cos θ, sin θ, 1 - j*(2/numStacks))` with `θ = i*(2π/numSides)`, and the same row of
`normals` is `(cos θ, sin θ, 0)`. -/
theorem Arith.Exact.rows {A : Arith ℝ ℝ} (hA : A.Exact) {numSides numStacks i j : Nat}
    (hk : 1 ≤ numStacks) (hi : i < numSides) (hj : j ≤ numStacks) :
    (defineUnitCylinder A numSides numStacks).vertices.read (i * (numStacks + 1) + j)
      = some (Real.cos ((i : ℝ) * (2 * Real.pi / (numSides : ℝ))),
          Real.sin ((i : ℝ) * (2 * Real.pi / (numSides : ℝ))),
          1 - (j : ℝ) * (2 / (numStacks : ℝ))) ∧
    (defineUnitCylinder A numSides numStacks).normals.read (i * (numStacks + 1) + j)
      = some (Real.cos ((i : ℝ) * (2 * Real.pi / (numSides : ℝ))),
          Real.sin ((i : ℝ) * (2 * Real.pi / (numSides : ℝ))), 0) := by
  obtain ⟨hv, hn⟩ := (vertexLoop_spec A numSides numStacks).2.2.2.2.2 i j hi hj
  refine ⟨hv.trans ?_, hn.trans ?_⟩
  · simp only [hA.toFloat, hA.cos, hA.sin, hA.thetaAt_eq, hA.zAt_eq, hA.neg, hA.one]
    congr 3
    split
    · rfl
    · have : j = numStacks := by omega
      subst this
      have : (j : ℝ) ≠ 0 := by exact_mod_cast (by omega : j ≠ 0)
      field_simp
      ring
  · simp only [hA.toFloat, hA.cos, hA.sin, hA.thetaAt_eq, hA.zero]

/-! ## Vertex and normal data -/

/-- C5: for `numSides ≥ 1`, `numStacks ≥ 1` and every line `i`: in every arithmetic the `z`
stored at flat index `i*(numStacks+1)` is the constant `1.0` and the `z` stored at flat index
`i*(numStacks+1)+numStacks` is the constant `-1.0`, whatever the accumulated value of `z`; in
exact arithmetic the `z` stored at flat index `i*(numStacks+1)+j` is `1 - j*(2/numStacks)` for
every `j ≤ numStacks`, which is `+1` at `j = 0` and `-1` at `j = numStacks`. -/
theorem C5_z_coordinates (A : Arith ℝ ℝ) (hA : A.Exact) (numSides numStacks i : Nat)
    (hs : 1 ≤ numSides) (hk : 1 ≤ numStacks) (hi : i < numSides) :
    (∀ (D F : Type) (B : Arith D F),
      ((defineUnitCylinder B numSides numStacks).vertices.read
          (i * (numStacks + 1) + 0)).map zCoord = some (B.toFloat B.one) ∧
      ((defineUnitCylinder B numSides numStacks).vertices.read
          (i * (numStacks + 1) + numStacks)).map zCoord = some (B.toFloat (B.neg B.one))) ∧
    (∀ j : Nat, j ≤ numStacks →
      ((defineUnitCylinder A numSides numStacks).vertices.read
        (i * (numStacks + 1) + j)).map zCoord
          = some (1 - (j : ℝ) * (2 / (numStacks : ℝ)))) ∧
    ((defineUnitCylinder A numSides numStacks).vertices.read
        (i * (numStacks + 1) + 0)).map zCoord = some (1 : ℝ) ∧
    ((defineUnitCylinder A numSides numStacks).vertices.read
        (i * (numStacks + 1) + numStacks)).map zCoord = some (-1 : ℝ) := by
  have gen : ∀ (D F : Type) (B : Arith D F),
      ((defineUnitCylinder B numSides numStacks).vertices.read
          (i * (numStacks + 1) + 0)).map zCoord = some (B.toFloat B.one) ∧
      ((defineUnitCylinder B numSides numStacks).vertices.read
          (i * (numStacks + 1) + numStacks)).map zCoord = some (B.toFloat (B.neg B.one)) := by
    intro D F B
    have h0 := ((vertexLoop_spec B numSides numStacks).2.2.2.2.2 i 0 hi (by omega)).1
    have h1 := ((vertexLoop_spec B numSides numStacks).2.2.2.2.2 i numStacks hi
      (Nat.le_refl _)).1
    constructor
    · show Option.map zCoord ((vertexLoop B numSides numStacks).vertices.read _) = _
      rw [h0, if_pos (by omega)]
      rfl
    · show Option.map zCoord ((vertexLoop B numSides numStacks).vertices.read _) = _
      rw [h1, if_neg (by omega)]
      rfl
  obtain ⟨g0, g1⟩ := gen ℝ ℝ A
  refine ⟨gen, ?_, ?_, ?_⟩
  · intro j hj
    rw [(hA.rows hk hi hj).1]
    rfl
  · rw [g0, hA.toFloat, hA.one]
  · rw [g1, hA.toFloat, hA.neg, hA.one]

theorem C5_z_coordinates_witness :
    ∃ A : Arith ℝ ℝ, A.Exact ∧ 1 ≤ 4 ∧ 1 ≤ 2 ∧ 3 < 4 ∧
    (∀ (D F : Type) (B : Arith D F),
      ((defineUnitCylinder B 4 2).vertices.read (3 * (2 + 1) + 0)).map zCoord
        = some (B.toFloat B.one) ∧
      ((defineUnitCylinder B 4 2).vertices.read (3 * (2 + 1) + 2)).map zCoord
        = some (B.toFloat (B.neg B.one))) ∧
    (∀ j : Nat, j ≤ 2 →
      ((defineUnitCylinder A 4 2).vertices.read (3 * (2 + 1) + j)).map zCoord
        = some (1 - (j : ℝ) * (2 / ((2 : Nat) : ℝ)))) ∧
    ((defineUnitCylinder A 4 2).vertices.read (3 * (2 + 1) + 0)).map zCoord = some (1 : ℝ) ∧
    ((defineUnitCylinder A 4 2).vertices.read (3 * (2 + 1) + 2)).map zCoord = some (-1 : ℝ) :=
  have hA : Arith.Exact (⟨0, 1, 2, Real.pi, fun x => -x, fun x y => x + y, fun x y => x - y,
      fun x y => x * y, fun x y => x / y, Real.cos, Real.sin, fun n => (n : ℝ), fun x => x⟩
      : Arith ℝ ℝ) :=
    ⟨rfl, rfl, rfl, rfl, fun _ => rfl, fun _ _ => rfl, fun _ _ => rfl, fun _ _ => rfl,
      fun _ _ => rfl, fun _ => rfl, fun _ => rfl, fun _ => rfl, fun _ => rfl⟩
  ⟨_, hA, by decide, by decide, by decide,
    C5_z_coordinates _ hA 4 2 3 (by decide) (by decide) (by decide)⟩

/-- C6: for `numSides ≥ 3`, `numStacks ≥ 1`, line `i < numSides` and stack `j ≤ numStacks`:
in every arithmetic the normal stored at flat index `i*(numStacks+1)+j` is `(x, y, 0.0)` with
the `x` and `y` of the vertex stored at the same index; in exact real arithmetic
`(x, y) = (cos(i*2*pi/numSides), sin(i*2*pi/numSides))`, so `x^2 + y^2 = 1` for the vertex
and the normal has unit length in the xy-plane. -/
theorem C6_xy_and_normals (A : Arith ℝ ℝ) (hA : A.Exact) (numSides numStacks i j : Nat)
    (hs : 3 ≤ numSides) (hk : 1 ≤ numStacks) (hi : i < numSides) (hj : j ≤ numStacks) :
    (∀ (D F : Type) (B : Arith D F), ∃ x y z : F,
      (defineUnitCylinder B numSides numStacks).vertices.read (i * (numStacks + 1) + j)
        = some (x, y, z) ∧
      (defineUnitCylinder B numSides numStacks).normals.read (i * (numStacks + 1) + j)
        = some (x, y, B.toFloat B.zero)) ∧
    (∃ x y z : ℝ,
      x = Real.cos ((i : ℝ) * 2 * Real.pi / (numSides : ℝ)) ∧
      y = Real.sin ((i : ℝ) * 2 * Real.pi / (numSides : ℝ)) ∧
      (defineUnitCylinder A numSides numStacks).vertices.read (i * (numStacks + 1) + j)
        = some (x, y, z) ∧
      (defineUnitCylinder A numSides numStacks).normals.read (i * (numStacks + 1) + j)
        = some (x, y, 0) ∧
      x ^ 2 + y ^ 2 = 1) := by
  constructor
  · intro D F B
    obtain ⟨hv, hn⟩ := (vertexLoop_spec B numSides numStacks).2.2.2.2.2 i j hi hj
    exact ⟨_, _, _, hv, hn⟩
  · obtain ⟨hv, hn⟩ := hA.rows hk hi hj
    have e : (i : ℝ) * 2 * Real.pi / (numSides : ℝ)
        = (i : ℝ) * (2 * Real.pi / (numSides : ℝ)) := by
      ring
    rw [← e] at hv hn
    exact ⟨_, _, _, rfl, rfl, hv, hn, Real.cos_sq_add_sin_sq _⟩

theorem C6_xy_and_normals_witness :
    ∃ A : Arith ℝ ℝ, A.Exact ∧ 3 ≤ 4 ∧ 1 ≤ 1 ∧ 1 < 4 ∧ 1 ≤ 1 ∧
    (∀ (D F : Type) (B : Arith D F), ∃ x y z : F,
      (defineUnitCylinder B 4 1).vertices.read (1 * (1 + 1) + 1) = some (x, y, z) ∧
      (defineUnitCylinder B 4 1).normals.read (1 * (1 + 1) + 1)
        = some (x, y, B.toFloat B.zero)) ∧
    (∃ x y z : ℝ,
      x = Real.cos (((1 : Nat) : ℝ) * 2 * Real.pi / ((4 : Nat) : ℝ)) ∧
      y = Real.sin (((1 : Nat) : ℝ) * 2 * Real.pi / ((4 : Nat) : ℝ)) ∧
      (defineUnitCylinder A 4 1).vertices.read (1 * (1 + 1) + 1) = some (x, y, z) ∧
      (defineUnitCylinder A 4 1).normals.read (1 * (1 + 1) + 1) = some (x, y, 0) ∧
      x ^ 2 + y ^ 2 = 1) :=
  have hA : Arith.Exact (⟨0, 1, 2, Real.pi, fun x => -x, fun x y => x + y, fun x y => x - y,
      fun x y => x * y, fun x y => x / y, Real.cos, Real.sin, fun n => (n : ℝ), fun x => x⟩
      : Arith ℝ ℝ) :=
    ⟨rfl, rfl, rfl, rfl, fun _ => rfl, fun _ _ => rfl, fun _ _ => rfl, fun _ _ => rfl,
      fun _ _ => rfl, fun _ => rfl, fun _ => rfl, fun _ => rfl, fun _ => rfl⟩
  ⟨_, hA, by decide, by decide, by decide, by decide,
    C6_xy_and_normals _ hA 4 1 1 1 (by decide) (by decide) (by decide) (by decide)⟩

/-! ## Winding order -/

/-- The angle between a line and its right neighbour has the sine of `2π/numSides`, also
across the seam. -/
theorem sin_neighbour {numSides i : Nat} (hi : i < numSides) :
    Real.sin ((((i + 1) % numSides : Nat) : ℝ) * (2 * Real.pi / (numSides : ℝ))
        - (i : ℝ) * (2 * Real.pi / (numSides : ℝ)))
      = Real.sin (2 * Real.pi / (numSides : ℝ)) := by
  have hn : (numSides : ℝ) ≠ 0 := by exact_mod_cast (by omega : numSides ≠ 0)
  rcases Nat.lt_or_ge (i + 1) numSides with h | h
  · rw [Nat.mod_eq_of_lt h]
    congr 1
    push_cast
    ring
  · have e : i + 1 = numSides := by omega
    rw [e, Nat.mod_self]
    have e' : (i : ℝ) = (numSides : ℝ) - 1 := by
      rw [← e]; push_cast; ring
    rw [e', ← Real.sin_sub_two_pi (2 * Real.pi / (numSides : ℝ))]
    congr 1
    field_simp
    ring

theorem sin_delta_pos {numSides : Nat} (hs : 3 ≤ numSides) :
    0 < Real.sin (2 * Real.pi / (numSides : ℝ)) := by
  have hn : (3 : ℝ) ≤ (numSides : ℝ) := by exact_mod_cast hs
  have hpos : (0 : ℝ) < numSides := by linarith
  apply Real.sin_pos_of_pos_of_lt_pi
  · exact div_pos (by positivity) hpos
  · rw [div_lt_iff₀ hpos]
    nlinarith [Real.pi_pos]

/-- The triple product of a triangle of quad `(i, j)` against the outward normal: both
triangles give `(2/numStacks) * sin(θ' - θ)`. -/
theorem triple_first (c s c' s' z z' : ℝ) :
    dot (cross (vsub (c, s, z') (c, s, z)) (vsub (c', s', z') (c, s, z))) (c, s, 0)
      = (z - z') * (s' * c - c' * s) := by
  simp only [dot, cross, vsub]
  ring

theorem triple_second (c s c' s' z z' : ℝ) :
    dot (cross (vsub (c', s', z') (c, s, z)) (vsub (c', s', z) (c, s, z))) (c, s, 0)
      = (z - z') * (s' * c - c' * s) := by
  simp only [dot, cross, vsub]
  ring

/-- C7: for `numSides ≥ 3` and `numStacks ≥ 1`, in exact real arithmetic, every triangle
`(a, b, c)` of the index array (triangle `t` occupies positions `3t`, `3t+1`, `3t+2`; both
triangles of every quad, seam quads included) satisfies
`((P_b - P_a) × (P_c - P_a)) · N_a > 0`, where `P` are the stored vertices and `N_a` is the
stored normal of vertex `a`: all triangles are counter-clockwise seen from outside. -/
theorem C7_winding (A : Arith ℝ ℝ) (hA : A.Exact) (numSides numStacks t : Nat)
    (hs : 3 ≤ numSides) (hk : 1 ≤ numStacks) (ht : t < 2 * numStacks * numSides) :
    ∃ (a b c : Nat) (Pa Pb Pc Na : ℝ × ℝ × ℝ),
      (defineUnitCylinder A numSides numStacks).vertexIndices.read (3 * t) = some a ∧
      (defineUnitCylinder A numSides numStacks).vertexIndices.read (3 * t + 1) = some b ∧
      (defineUnitCylinder A numSides numStacks).vertexIndices.read (3 * t + 2) = some c ∧
      (defineUnitCylinder A numSides numStacks).vertices.read a = some Pa ∧
      (defineUnitCylinder A numSides numStacks).vertices.read b = some Pb ∧
      (defineUnitCylinder A numSides numStacks).vertices.read c = some Pc ∧
      (defineUnitCylinder A numSides numStacks).normals.read a = some Na ∧
      0 < dot (cross (vsub Pb Pa) (vsub Pc Pa)) Na := by
  have hp : 3 * t < 6 * numStacks * numSides := by
    have : 6 * numStacks * numSides = 3 * (2 * numStacks * numSides) := by ring
    omega
  obtain ⟨i, j, r, hi, hj, hr, hpos⟩ := position_decomp hp
  have hi' : (i + 1) % numSides < numSides := Nat.mod_lt _ (by omega)
  -- the four corners of the quad
  have hLj := hA.rows hk hi (show j ≤ numStacks by omega)
  have hLj1 := hA.rows hk hi (show j + 1 ≤ numStacks by omega)
  have hRj := hA.rows hk hi' (show j ≤ numStacks by omega)
  have hRj1 := hA.rows hk hi' (show j + 1 ≤ numStacks by omega)
  have hks : (numStacks : ℝ) ≠ 0 := by exact_mod_cast (by omega : numStacks ≠ 0)
  have hz : (1 - (j : ℝ) * (2 / (numStacks : ℝ)))
      - (1 - ((j + 1 : Nat) : ℝ) * (2 / (numStacks : ℝ))) = 2 / (numStacks : ℝ) := by
    push_cast
    ring
  have hsin := sin_neighbour hi
  rw [Real.sin_sub] at hsin
  have hfinal : 0 < (1 - (j : ℝ) * (2 / (numStacks : ℝ))
        - (1 - ((j + 1 : Nat) : ℝ) * (2 / (numStacks : ℝ))))
      * (Real.sin ((((i + 1) % numSides : Nat) : ℝ) * (2 * Real.pi / (numSides : ℝ)))
          * Real.cos ((i : ℝ) * (2 * Real.pi / (numSides : ℝ)))
        - Real.cos ((((i + 1) % numSides : Nat) : ℝ) * (2 * Real.pi / (numSides : ℝ)))
          * Real.sin ((i : ℝ) * (2 * Real.pi / (numSides : ℝ)))) := by
    rw [hz, hsin]
    exact mul_pos (div_pos (by norm_num) (lt_of_le_of_ne (Nat.cast_nonneg _) hks.symm))
      (sin_delta_pos hs)
  have hr' : r = 0 ∨ r = 3 := by omega
  have e0 := read_vertexIndices A hi hj (show 0 < 6 by omega)
  have e1 := read_vertexIndices A hi hj (show 1 < 6 by omega)
  have e2 := read_vertexIndices A hi hj (show 2 < 6 by omega)
  have e3 := read_vertexIndices A hi hj (show 3 < 6 by omega)
  have e4 := read_vertexIndices A hi hj (show 4 < 6 by omega)
  have e5 := read_vertexIndices A hi hj (show 5 < 6 by omega)
  simp only [quadEntry, rightBase0_eq numStacks hi] at e0 e1 e2 e3 e4 e5
  rcases hr' with rfl | rfl
  · rw [hpos, Nat.add_assoc, Nat.add_assoc]
    refine ⟨_, _, _, _, _, _, _, e0, e1, e2, hLj.1, hLj1.1, hRj1.1, hLj.2, ?_⟩
    rw [triple_first]
    exact hfinal
  · rw [hpos, Nat.add_assoc, Nat.add_assoc]
    refine ⟨_, _, _, _, _, _, _, e3, e4, e5, hLj.1, hRj1.1, hRj.1, hLj.2, ?_⟩
    rw [triple_second]
    exact hfinal

theorem C7_winding_witness :
    ∃ A : Arith ℝ ℝ, A.Exact ∧ 3 ≤ 3 ∧ 1 ≤ 1 ∧ 5 < 2 * 1 * 3 ∧
    ∃ (a b c : Nat) (Pa Pb Pc Na : ℝ × ℝ × ℝ),
      (defineUnitCylinder A 3 1).vertexIndices.read (3 * 5) = some a ∧
      (defineUnitCylinder A 3 1).vertexIndices.read (3 * 5 + 1) = some b ∧
      (defineUnitCylinder A 3 1).vertexIndices.read (3 * 5 + 2) = some c ∧
      (defineUnitCylinder A 3 1).vertices.read a = some Pa ∧
      (defineUnitCylinder A 3 1).vertices.read b = some Pb ∧
      (defineUnitCylinder A 3 1).vertices.read c = some Pc ∧
      (defineUnitCylinder A 3 1).normals.read a = some Na ∧
      0 < dot (cross (vsub Pb Pa) (vsub Pc Pa)) Na :=
  have hA : Arith.Exact (⟨0, 1, 2, Real.pi, fun x => -x, fun x y => x + y, fun x y => x - y,
      fun x y => x * y, fun x y => x / y, Real.cos, Real.sin, fun n => (n : ℝ), fun x => x⟩
      : Arith ℝ ℝ) :=
    ⟨rfl, rfl, rfl, rfl, fun _ => rfl, fun _ _ => rfl, fun _ _ => rfl, fun _ _ => rfl,
      fun _ _ => rfl, fun _ => rfl, fun _ => rfl, fun _ => rfl, fun _ => rfl⟩
  ⟨_, hA, by decide, by decide, by decide,
    C7_winding _ hA 3 1 5 (by decide) (by decide) (by decide)⟩

/-! ## Camera controller -/

theorem clampPhi_range (p : ℚ) : -90 ≤ clampPhi p ∧ clampPhi p ≤ 90 := by
  unfold clampPhi
  split_ifs with h1 h2
  · norm_num
  · norm_num
  · exact ⟨le_of_not_lt h2, le_of_not_lt h1⟩

/-- A non-quit key returns, and either leaves `phi` alone or stores a clamped value. -/
theorem keyboard_phi (rnd : ℚ → ℚ) (key : Char) (x y : Int) (s : Camera)
    (hq : isQuitKey key = false) :
    ∃ s' b, keyboard rnd key x y s = .ret s' b ∧ (s'.phi = s.phi ∨ ∃ p, s'.phi = clampPhi p) := by
  unfold keyboard
  rw [hq]
  simp only [Bool.false_eq_true, if_false]
  split_ifs
  · exact ⟨_, _, rfl, Or.inl rfl⟩
  · exact ⟨_, _, rfl, Or.inl rfl⟩
  · exact ⟨_, _, rfl, Or.inr ⟨_, rfl⟩⟩
  · exact ⟨_, _, rfl, Or.inr ⟨_, rfl⟩⟩
  · exact ⟨_, _, rfl, Or.inl rfl⟩
  · exact ⟨_, _, rfl, Or.inl rfl⟩
  · exact ⟨_, _, rfl, Or.inl rfl⟩

/-- C4: starting from the initial camera state (`phi = 30`) or from any state with
`-90 ≤ phi ≤ 90`, every finite sequence of non-quit key events is processed to the end and
leaves `-90 ≤ phi ≤ 90`, whatever rounding the `float` additions perform. -/
theorem C4_elevation_clamp (rnd : ℚ → ℚ) (keys : List Char) (s : Camera)
    (hk : ∀ k ∈ keys, isQuitKey k = false)
    (hs : s = Camera.init ∨ (-90 ≤ s.phi ∧ s.phi ≤ 90)) :
    ∃ s', pressKeys rnd keys s = some s' ∧ -90 ≤ s'.phi ∧ s'.phi ≤ 90 := by
  have hs' : -90 ≤ s.phi ∧ s.phi ≤ 90 := by
    rcases hs with rfl | h
    · simp only [Camera.init]; norm_num
    · exact h
  clear hs
  induction keys generalizing s with
  | nil => exact ⟨s, rfl, hs'⟩
  | cons key keys ih =>
    obtain ⟨s1, b, h1, hphi⟩ := keyboard_phi rnd key 0 0 s (hk key (List.mem_cons_self _ _))
    have inv1 : -90 ≤ s1.phi ∧ s1.phi ≤ 90 := by
      rcases hphi with h | ⟨p, h⟩
      · rw [h]; exact hs'
      · rw [h]; exact clampPhi_range p
    obtain ⟨s2, h2, inv2⟩ := ih s1 (fun k hk' => hk k (List.mem_cons_of_mem _ hk')) inv1
    refine ⟨s2, ?_, inv2⟩
    simp only [pressKeys, h1]
    exact h2

theorem C4_elevation_clamp_witness :
    (∀ k ∈ ['8', '8', '2', '4', 'x'], isQuitKey k = false) ∧
    (Camera.init = Camera.init ∨ (-90 ≤ Camera.init.phi ∧ Camera.init.phi ≤ 90)) ∧
    ∃ s', pressKeys id ['8', '8', '2', '4', 'x'] Camera.init = some s' ∧
      -90 ≤ s'.phi ∧ s'.phi ≤ 90 :=
  ⟨by decide, Or.inl rfl,
    C4_elevation_clamp id ['8', '8', '2', '4', 'x'] Camera.init (by decide) (Or.inl rfl)⟩

/-- The closed form `dist = 5 - 0.5*n` does not need exact arithmetic everywhere: it holds
for the first `B + 10` presses of `'9'` under any rounding that is exact on the half-integers
between `-B/2` and `5`. -/
theorem pressKeys_nine_rounded (rnd : ℚ → ℚ) (B : Nat)
    (hr : ∀ k : Int, -(B : Int) ≤ k → k ≤ 10 → rnd ((k : ℚ) / 2) = (k : ℚ) / 2)
    (theta phi : ℚ) (n : Nat) (hn : n ≤ B + 10) :
    pressKeys rnd (List.replicate n '9') { theta := theta, phi := phi, dist := 5 }
      = some { theta := theta, phi := phi, dist := 5 - (n : ℚ) * (1 / 2) } := by
  have key : ∀ m : Nat, ∀ d : Int, (m : Int) ≤ d + B → d ≤ 10 →
      pressKeys rnd (List.replicate m '9') { theta := theta, phi := phi, dist := (d : ℚ) / 2 }
        = some { theta := theta, phi := phi, dist := (d : ℚ) / 2 - (m : ℚ) * (1 / 2) } := by
    intro m
    induction m with
    | zero => intro d _ _; simp [pressKeys]
    | succ m ih =>
      intro d h1 h2
      have hstep : keyboard rnd '9' 0 0 { theta := theta, phi := phi, dist := (d : ℚ) / 2 }
          = .ret { theta := theta, phi := phi, dist := rnd ((d : ℚ) / 2 - 1 / 2) } true := rfl
      have e : (d : ℚ) / 2 - 1 / 2 = ((d - 1 : Int) : ℚ) / 2 := by
        push_cast; ring
      have hm : ((m + 1 : Nat) : Int) = (m : Int) + 1 := by push_cast; rfl
      simp only [List.replicate_succ, pressKeys, hstep]
      rw [e, hr (d - 1) (by omega) (by omega), ih (d - 1) (by omega) (by omega)]
      congr 2
      push_cast
      ring
  have := key n 10 (by omega) (by omega)
  norm_num at this ⊢
  exact this

/-- C9, as stated, fails: in the trace of `display` after `init`, the command at index 2
sets a light position, and no camera transform has been issued before it. -/
theorem C9_lights_not_after_camera :
    ¬ LightsAfterCamera RenderState.afterInit (display RenderState.afterInit) := by
  intro h
  obtain ⟨m, hm, _⟩ := h 2 (.lightPosition 1 light1Pos) rfl rfl
  omega

/-- C9, amended: `display` issues, in this order, (1) clear of colour and depth, (2) reset
of the view transform, then the position of light 1 (camera frame, before the camera
transform), then the camera transform (identity, translate by `(0,0,-dist)`, rotate `phi`
about x, rotate `theta` about y), (3) then the position of light 0, (4) the three axes with
lighting disabled, (5) lighting re-enabled, (6) the cylinder twice, the second time inside
push/pop with its model transform, each draw binding the three buffers, issuing one indexed
triangle draw with `numIndices` and then unbinding, (7) swap buffers.  The only light
positions set are those two, and the only draws are the two with `numIndices`. -/
theorem C9_display_order (g : RenderState) :
    (∃ p1 p0 : ℚ × ℚ × ℚ × ℚ,
      display g =
        [.clearColorAndDepth, .loadIdentity, .lightPosition 1 p1]
        ++ [.loadIdentity, .translatef 0 0 (-g.cam.dist), .rotatef g.cam.phi 1 0 0,
            .rotatef g.cam.theta 0 1 0]
        ++ [.lightPosition 0 p0]
        ++ [.disableLighting] ++ drawAxes
        ++ [.enableLighting]
        ++ [.color3f 1 0 0] ++ displayCylinder g
        ++ [.pushMatrix, .rotatef (-90) 1 0 0, .translatef (3 / 2) 1 (-1 / 2),
            .scalef (1 / 2) (1 / 2) 1, .color3f 0 0 1] ++ displayCylinder g ++ [.popMatrix]
        ++ [.swapBuffers] ∧
      (display g).filter GLCmd.isLightPosition
        = [.lightPosition 1 p1, .lightPosition 0 p0]) ∧
    displayCylinder g =
      [.enableClientState .vertexArray, .bindBuffer .arrayBuffer g.vertexBuffer, .vertexPointer,
       .enableClientState .normalArray, .bindBuffer .arrayBuffer g.normalBuffer, .normalPointer,
       .bindBuffer .elementArrayBuffer g.indexBuffer,
       .drawElementsTriangles g.numIndices,
       .disableClientState .vertexArray, .disableClientState .normalArray,
       .bindBuffer .arrayBuffer 0, .bindBuffer .elementArrayBuffer 0] ∧
    drawAxes =
      [.beginLines,
       .color3f 1 0 0, .vertex3f 0 0 0, .vertex3f 2 0 0,
       .color3f 0 1 0, .vertex3f 0 0 0, .vertex3f 0 2 0,
       .color3f 0 0 1, .vertex3f 0 0 0, .vertex3f 0 0 2,
       .glEnd] ∧
    (display g).filter GLCmd.isDraw
      = [.drawElementsTriangles g.numIndices, .drawElementsTriangles g.numIndices] ∧
    ((display g).drop 3).take 4 = setCamera g.cam := by
  refine ⟨⟨light1Pos, light1Pos, ?_, ?_⟩, rfl, rfl, ?_, ?_⟩
  · simp [display, setCamera]
  · simp [display, setCamera, drawAxes, displayCylinder, GLCmd.isLightPosition]
  · simp [display, setCamera, drawAxes, displayCylinder, GLCmd.isDraw]
  · simp [display, setCamera]

end DrawCylinder
